import Mathlib

/-!
Verification development for the embargo-butler queue-and-lease coordination
layer.  The definitions below are shallow embeddings of the Python sources:

* `src/info.py` — `Info.from_path`, `ExposureInfo.__init__`, `LfaInfo.__init__`
* `src/enqueue.py` — `enqueue_objects`, `update_stats`
* `src/ingest.py` — `on_success`, `on_ingest_failure`, `on_metadata_failure`,
  and the worker lease loop's queue transfers
* `src/idle.py` — the idle reclaimer's requeue loop

Strings are modelled as `List Char`; the Redis store is modelled as explicit
state records; Python exceptions are modelled with `Except`.
-/

deriving instance DecidableEq for Except

/-- Strings from the Python sources, modelled as lists of characters. -/
abbrev Str : Type := List Char

/-- Conversion from Lean string literals to the `List Char` model. -/
def strL (s : String) : Str := s.data

/-- Boolean test that `p` is an initial segment of `l`
(Python `str.startswith`). -/
def listStartsWith : Str → Str → Bool
  | [], _ => true
  | _ :: _, [] => false
  | p :: ps, x :: xs => p == x && listStartsWith ps xs

/-- Boolean substring test (Python `in` on strings). -/
def listContains (pat : Str) : Str → Bool
  | [] => pat.isEmpty
  | x :: xs => listStartsWith pat (x :: xs) || listContains pat xs

/-- Boolean test that `p` is a final segment of `l` (Python `str.endswith`). -/
def listEndsWith (p : Str) (l : Str) : Bool :=
  listStartsWith p.reverse l.reverse

/-- Split a character list at every occurrence of the separator `c`
(Python `str.split(c)`; `""` splits to `[""]`, separators at the ends
produce empty components). -/
def splitOnChar (c : Char) : Str → List Str
  | [] => [[]]
  | x :: xs =>
    match splitOnChar c xs with
    | [] => [[]]
    | y :: ys => if x == c then [] :: y :: ys else (x :: y) :: ys

/-- Parse failure (`info.py` logs and re-raises the exception from the
failed tuple unpacking / component-count check). -/
inductive PErr where
  | malformed
deriving DecidableEq, Repr

/-- Descriptor parsed from an item identifier: `Info`'s two concrete
subclasses in `src/info.py`.  `exposure` carries the extra fields set by
`ExposureInfo.__init__`; `lfa` carries the fields set by
`LfaInfo.__init__`. -/
inductive Info where
  | exposure (path bucket instrument obsDay expId filename
      instrumentCode controller seqNum : Str)
  | lfa (path bucket instrument obsDay filename : Str)
deriving DecidableEq, Repr

namespace Info

def path : Info → Str
  | .exposure p _ _ _ _ _ _ _ _ => p
  | .lfa p _ _ _ _ => p

def bucket : Info → Str
  | .exposure _ b _ _ _ _ _ _ _ => b
  | .lfa _ b _ _ _ => b

def instrument : Info → Str
  | .exposure _ _ i _ _ _ _ _ _ => i
  | .lfa _ _ i _ _ => i

def obsDay : Info → Str
  | .exposure _ _ _ d _ _ _ _ _ => d
  | .lfa _ _ _ d _ => d

def expId : Info → Str
  | .exposure _ _ _ _ e _ _ _ _ => e
  | .lfa _ _ _ _ _ => []

def filename : Info → Str
  | .exposure _ _ _ _ _ f _ _ _ => f
  | .lfa _ _ _ _ f => f

def seqNum : Info → Str
  | .exposure _ _ _ _ _ _ _ _ s => s
  | .lfa _ _ _ _ _ => []

/-- `Info.needs_exposure` / `ExposureInfo.needs_exposure` from
`src/info.py`: true exactly for an exposure descriptor whose filename ends
in `_guider.fits`. -/
def needs_exposure : Info → Bool
  | .exposure _ _ _ _ _ f _ _ _ => listEndsWith (strL "_guider.fits") f
  | .lfa _ _ _ _ _ => false

end Info

/-- `ExposureInfo.__init__` from `src/info.py`: the path must split on `/`
into exactly five components `bucket/instrument/obs_day/exp_id/filename`,
and `exp_id` must split on `_` into exactly four components
`instrument_code_controller_obsday_seqnum`.  The duplicate-day comparison
only logs a warning and does not change the result; any shape mismatch
raises (modelled as `Except.error`). -/
def expParse (p : Str) : Except PErr Info :=
  match splitOnChar '/' p with
  | [bucket, instrument, obsDay, expId, filename] =>
    match splitOnChar '_' expId with
    | [icode, controller, _obsDay2, seqNum] =>
      .ok (.exposure p bucket instrument obsDay expId filename icode controller seqNum)
    | _ => .error .malformed
  | _ => .error .malformed

/-- `LfaInfo.__init__` from `src/info.py`: 8, 7 or 6 slash-separated
components are accepted; anything else raises `ValueError` (modelled as
`Except.error`). -/
def lfaParse (p : Str) : Except PErr Info :=
  match splitOnChar '/' p with
  | [bucket, csc, generator, year, month, day, _directory, filename] =>
    .ok (.lfa p bucket (csc ++ strL "/" ++ generator) (year ++ month ++ day) filename)
  | [bucket, csc, generator, year, month, day, filename] =>
    .ok (.lfa p bucket (csc ++ strL "/" ++ generator) (year ++ month ++ day) filename)
  | [bucket, instrument, year, month, day, filename] =>
    .ok (.lfa p bucket instrument (year ++ month ++ day) filename)
  | _ => .error .malformed

/-- The `s3://` storage-scheme marker. -/
def s3m : Str := strL "s3://"

/-- The substring that selects the LFA parsing variant. -/
def lfam : Str := strL "rubinobs-lfa-"

/-- `Info.from_path` from `src/info.py`: strip a leading `s3://` once,
then dispatch to `LfaInfo` when the remaining path contains
`rubinobs-lfa-` and to `ExposureInfo` otherwise. -/
def from_path (url : Str) : Except PErr Info :=
  let u := if listStartsWith s3m url then url.drop s3m.length else url
  if listContains lfam u then lfaParse u else expParse u

example : from_path (strL "bucketA/inst/20240101/INST_C_20240101_000123/INST_C_20240101_000123_R01_S02.fits")
    = .ok (.exposure (strL "bucketA/inst/20240101/INST_C_20240101_000123/INST_C_20240101_000123_R01_S02.fits")
        (strL "bucketA") (strL "inst") (strL "20240101")
        (strL "INST_C_20240101_000123") (strL "INST_C_20240101_000123_R01_S02.fits")
        (strL "INST") (strL "C") (strL "000123")) := by decide

example : from_path (strL "bad.fits") = .error .malformed := by decide

example : (from_path (strL "rubinobs-lfa-x/csc/gen/2024/01/02/file.fits")).isOk = true := by decide

/-! ## Intake router: `enqueue_objects` (`src/enqueue.py`)

The Redis pipeline buffers `lpush` commands and executes them only at the
end of the batch; a parse exception aborts the batch with no command
executed and propagates to the caller.  We therefore model a batch as the
list of buffered push operations it would execute (`PushOp`), produced
together with the returned `info_list`, inside `Except`. -/

/-- One buffered `lpush` of the intake router: either onto the destination
queue `QUEUE:{bucket}` or onto the wait set `EXPWAIT:{exp_id}`. -/
inductive PushOp where
  | toQueue (bucket : Str) (o : Str)
  | toWait (expId : Str) (o : Str)
deriving DecidableEq, Repr

/-- The body of `enqueue_objects`'s loop for one object `o`.  `sel` is the
configured `DATASET_REGEXP` name-pattern filter (`regexp.search`), `seen`
is `r.hexists("EXPSEEN", exp_id)`.  Returns the buffered pushes and the
`info_list` contribution; a parse failure is an exception. -/
def routeOne (sel seen : Str → Bool) (o : Str) :
    Except PErr (List PushOp × List Info) :=
  if sel o then
    match from_path o with
    | .error e => .error e
    | .ok info =>
      (if info.needs_exposure then
        (if seen info.expId then .ok ([], [info])
         else .ok ([.toWait info.expId o], [info]))
       else .ok ([.toQueue info.bucket o], [info]))
  else .ok ([], [])

/-- `enqueue_objects` over a batch: iterate the loop body, concatenating
buffered pushes and `info_list`; the first parse exception aborts the whole
batch (the pipeline is discarded without executing, and later objects are
not reached). -/
def enqueue_objects (sel seen : Str → Bool) : List Str →
    Except PErr (List PushOp × List Info)
  | [] => .ok ([], [])
  | o :: os => do
    let r ← routeOne sel seen o
    let rest ← enqueue_objects sel seen os
    .ok (r.1 ++ rest.1, r.2 ++ rest.2)

/-! ## Statistics aggregator: `update_stats` (`src/enqueue.py`)

For the `MAXSEQ:{bucket}:{instrument}:{obs_day}` key, `update_stats` first
folds the batch's candidate sequence numbers with
`max(int(info.seq_num), max_seqnum.get(key, 0))`, then runs a
watch/multi (compare-and-swap) loop whose committed effect is
`set(key, max(current, aggregate))` (or `aggregate` when the key is
absent).  A `WatchError` retry commits nothing, so each `update_stats`
call commits its aggregate exactly once. -/

/-- The committed effect of one successful watch/multi transaction in
`update_stats`: `value = candidate` when the key is absent, otherwise
`max(int(current), candidate)`. -/
def commitSeq (cur : Option Nat) (cand : Nat) : Nat :=
  match cur with
  | none => cand
  | some v => max v cand

/-- The per-key aggregate built inside `update_stats`'s first loop:
`max_seqnum[key] = max(int(info.seq_num), max_seqnum.get(key, 0))`
folded over the batch. -/
def aggregateSeq (cands : List Nat) : Nat :=
  cands.foldl (fun a c => max c a) 0

/-- The stored `MAXSEQ` value after one `update_stats` call whose batch
contributed the candidates `cands` for this key (the key is written only
when the batch contains at least one `ExposureInfo` for it). -/
def update_stats_seq (cur : Option Nat) (cands : List Nat) : Option Nat :=
  if cands.isEmpty then cur else some (commitSeq cur (aggregateSeq cands))

/-- An interleaving of concurrent `update_stats` calls on one key: each
element of `cs` is the aggregate committed by one call's successful CAS
transaction, applied in commit order. -/
def runCommits (v : Option Nat) (cs : List Nat) : Option Nat :=
  cs.foldl (fun acc c => some (commitSeq acc c)) v

/-! ## Worker callbacks (`src/ingest.py`)

State touched by the ingest worker's callbacks.  Hashes are modelled as
total functions (`hincrby` on a missing field starts from 0; `hget` of a
missing field is absent).  `lrem(key, 0, x)` removes every occurrence of
`x`.  Each Redis pipeline is a single atomic batch and is modelled as one
state-to-state function. -/

structure WState where
  /-- `FAIL:{bucket}:{instrument}` hash, field `obs_day`. -/
  failCnt : Str × Str × Str → Nat
  /-- `INGEST:{bucket}:{instrument}` hash, field `obs_day`. -/
  ingCnt : Str × Str × Str → Nat
  /-- `FILE:{path}` hash, field `ing_fail_count`. -/
  fileFail : Str → Nat
  /-- `FILE:{path}` hash, field `ing_fail_exc`. -/
  fileIngExc : Str → Option Str
  /-- `FILE:{path}` hash, field `md_fail_exc`. -/
  fileMdExc : Str → Option Str
  /-- `FILE:{path}` hash, field `ingest_time`. -/
  fileIngestTime : Str → Option Nat
  /-- `WORKER:{bucket}:{worker_name}` list (this worker's lease list). -/
  workerQueue : List Str
  /-- `EXPWAIT:{exp_id}` lists (the wait sets). -/
  waitSet : Str → List Str
deriving Inhabited

/-- `MAX_FAILURES` from `src/ingest.py`. -/
def MAX_FAILURES : Nat := 3

/-- `on_success` from `src/ingest.py`, for one successfully-ingested
dataset: parse the URL, then in one pipeline `lrem` the path from the
worker's lease list, set `FILE:{path} ingest_time`, and increment the
`INGEST:{bucket}:{instrument}` day counter.  (No other key is touched: in
particular no `EXPWAIT` wait set is read or written and `EXPSEEN` is not
updated.) -/
def on_success_one (url : Str) (now : Nat) (s : WState) : Except PErr WState :=
  match from_path url with
  | .error e => .error e
  | .ok info => .ok { s with
      workerQueue := s.workerQueue.filter (fun y => y ≠ info.path),
      fileIngestTime := Function.update s.fileIngestTime info.path (some now),
      ingCnt := Function.update s.ingCnt (info.bucket, info.instrument, info.obsDay)
        (s.ingCnt (info.bucket, info.instrument, info.obsDay) + 1) }

/-- `on_ingest_failure` from `src/ingest.py`: one pipeline increments the
`FAIL:{bucket}:{instrument}` day counter, records `ing_fail_exc`, and
increments `FILE:{path} ing_fail_count`; afterwards, if the new count has
reached `MAX_FAILURES`, the path is `lrem`-removed from the worker's lease
list. -/
def on_ingest_failure (url exc : Str) (s : WState) : Except PErr WState :=
  match from_path url with
  | .error e => .error e
  | .ok info =>
    let key := (info.bucket, info.instrument, info.obsDay)
    let s1 : WState := { s with
      failCnt := Function.update s.failCnt key (s.failCnt key + 1),
      fileIngExc := Function.update s.fileIngExc info.path (some exc),
      fileFail := Function.update s.fileFail info.path (s.fileFail info.path + 1) }
    .ok (if MAX_FAILURES ≤ s1.fileFail info.path then
          { s1 with workerQueue := s1.workerQueue.filter (fun y => y ≠ info.path) }
         else s1)

/-- `on_metadata_failure` from `src/ingest.py`: a single pipeline (one
atomic batch) increments the `FAIL:{bucket}:{instrument}` day counter,
records `md_fail_exc`, and unconditionally `lrem`-removes the path from
the worker's lease list.  `ing_fail_count` is neither read nor written. -/
def on_metadata_failure (url exc : Str) (s : WState) : Except PErr WState :=
  match from_path url with
  | .error e => .error e
  | .ok info => .ok { s with
      failCnt := Function.update s.failCnt (info.bucket, info.instrument, info.obsDay)
        (s.failCnt (info.bucket, info.instrument, info.obsDay) + 1),
      fileMdExc := Function.update s.fileMdExc info.path (some exc),
      workerQueue := s.workerQueue.filter (fun y => y ≠ info.path) }

/-! ## Idle reclaimer (`src/idle.py`)

For every worker lease list whose `object idletime` exceeds `IDLE_MAX`,
`main` loops `while r.lmove(queue, dest, 0, "RIGHT", "LEFT") is not None`.
That call passes five positional arguments, but redis-py's `lmove` has
signature `lmove(first_list, second_list, src="LEFT", dest="RIGHT")` —
the stray `0` is `blmove`'s timeout parameter (compare the correct
`r.blmove(redis_queue, worker_queue, 0, "RIGHT", "LEFT")` at
ingest.py:298 and `r.lmove(redis_queue, worker_queue, "RIGHT", "LEFT")`
at ingest.py:301).  Python therefore raises `TypeError` before any Redis
command is issued, and `main` has no exception handler around the loop.

We model both layers: `idleLmoveCall` is the call as written, raising
`TypeError` at its arity check (with the atomic right-pop/left-push it
would otherwise perform), `idleDrainLoop`/`reclaimListActual` are the
loop and the over-threshold branch of `main` over that call, and
`idleDrain` is the drain loop the line evidently intends — the same loop
with the stray timeout argument removed — used to state what the pass
would do once the call is fixed. -/

/-- `IDLE_MAX` from `src/idle.py`. -/
def IDLE_MAX : Nat := 10

/-- A Python runtime error of the idle reclaimer's pass. -/
inductive PyErr where
  /-- `TypeError`: too many positional arguments. -/
  | typeErr
deriving DecidableEq, Repr

/-- Number of positional arguments accepted by redis-py's
`lmove(self, first_list, second_list, src="LEFT", dest="RIGHT")` after
`self`. -/
def lmoveParamCount : Nat := 4

/-- Number of positional arguments supplied at idle.py:65,
`r.lmove(queue, dest, 0, "RIGHT", "LEFT")`. -/
def idleLmoveArgCount : Nat := 5

/-- One call of idle.py:65 as written: Python's argument binding raises
`TypeError` when more positional arguments are supplied than `lmove`
accepts; otherwise the call would atomically pop the rightmost element of
`src` and push it leftmost on `dst`, returning the moved element (or
`none` when `src` is empty). -/
def idleLmoveCall (src dst : List Str) :
    Except PyErr (Option Str × List Str × List Str) :=
  if lmoveParamCount < idleLmoveArgCount then .error .typeErr
  else
    match src.getLast? with
    | none => .ok (none, src, dst)
    | some x => .ok (some x, src.dropLast, x :: dst)

/-- The reclaimer's `while r.lmove(...) is not None` loop over
`idleLmoveCall`: stop when a call returns `none`, propagate a raised
`TypeError` (no handler in `main`); also counts the calls issued. -/
def idleDrainLoop (src dst : List Str) (n : Nat) :
    Except PyErr (List Str × List Str × Nat) :=
  match h : idleLmoveCall src dst with
  | .error e => .error e
  | .ok (none, src1, dst1) => .ok (src1, dst1, n + 1)
  | .ok (some _, src1, dst1) => idleDrainLoop src1 dst1 (n + 1)
termination_by src.length
decreasing_by
  simp [idleLmoveCall, lmoveParamCount, idleLmoveArgCount] at h

/-- One reclaimer visit to one lease list, as the source executes it:
when the idle time exceeds the threshold, run the drain loop (whose first
`lmove` call raises `TypeError`); otherwise leave the list alone. -/
def reclaimListActual (idle : Nat) (src dst : List Str) :
    Except PyErr (List Str × List Str × Nat) :=
  if IDLE_MAX < idle then idleDrainLoop src dst 0 else .ok (src, dst, 0)

/-- The drain loop idle.py:65 evidently intends (the claim's reading):
the same repeated right-to-left `lmove` with the stray timeout argument
removed, until a call returns empty.  Returns the final lease list, the
final destination queue, and the number of `lmove` calls issued (the last
call is the one that returns empty). -/
def idleDrain (src dst : List Str) : List Str × List Str × Nat :=
  match h : src.getLast? with
  | none => (src, dst, 1)
  | some x =>
    let r := idleDrain src.dropLast (x :: dst)
    (r.1, r.2.1, r.2.2 + 1)
termination_by src.length
decreasing_by
  have hne : src ≠ [] := by
    intro hnil
    rw [hnil] at h
    simp at h
  have : 0 < src.length := List.length_pos.mpr hne
  simp [List.length_dropLast]
  omega

/-! ## The queue/lease/wait transition system (claim C1)

The shared store's lists, indexed by destination bucket (`QUEUE:{bucket}`),
worker (`WORKER:{bucket}:{worker}`), and exposure group
(`EXPWAIT:{exp_id}`).  The step relation collects the atomic operations
named by the claim: the worker's blocking `blmove` (ingest.py:298), the
greedy non-blocking `lmove` (ingest.py:301), the idle reclaimer's
single-item `lmove`s (idle.py:65), and the `lrem` removals performed by
the success and failure callbacks (ingest.py:87,117,139).  Each worker `w`
serves the destination queue of its own bucket `bkt w`. -/

structure QSys (D W G : Type) where
  queue : D → List Str
  lease : W → List Str
  wait : G → List Str

/-- One atomic store operation of the lease loop / idle reclaimer /
callbacks.  `lmove`-style transfers pop the rightmost element of the
source and push it leftmost on the target; `lrem key 0 x` removes every
occurrence of `x`. -/
inductive QStep {D W G : Type} [DecidableEq D] [DecidableEq W] (bkt : W → D) :
    QSys D W G → QSys D W G → Prop
  /-- `r.blmove(redis_queue, worker_queue, 0, "RIGHT", "LEFT")`
  (ingest.py:298): the worker's blocking atomic pop-and-push transfer. -/
  | blmove (s : QSys D W G) (w : W) (x : Str) (rest : List Str)
      (h : s.queue (bkt w) = rest ++ [x]) :
      QStep bkt s ⟨Function.update s.queue (bkt w) rest,
        Function.update s.lease w (x :: s.lease w), s.wait⟩
  /-- `r.lmove(redis_queue, worker_queue, "RIGHT", "LEFT")`
  (ingest.py:301): the greedy non-blocking transfer. -/
  | greedy (s : QSys D W G) (w : W) (x : Str) (rest : List Str)
      (h : s.queue (bkt w) = rest ++ [x]) :
      QStep bkt s ⟨Function.update s.queue (bkt w) rest,
        Function.update s.lease w (x :: s.lease w), s.wait⟩
  /-- The idle reclaimer's single-item move from a lease list back to the
  destination queue of the worker's bucket (idle.py:65). -/
  | idleMove (s : QSys D W G) (w : W) (x : Str) (rest : List Str)
      (h : s.lease w = rest ++ [x]) :
      QStep bkt s ⟨Function.update s.queue (bkt w) (x :: s.queue (bkt w)),
        Function.update s.lease w rest, s.wait⟩
  /-- `lrem` removal by the success callback (ingest.py:87). -/
  | successRem (s : QSys D W G) (w : W) (x : Str) :
      QStep bkt s ⟨s.queue,
        Function.update s.lease w ((s.lease w).filter (fun y => y ≠ x)), s.wait⟩
  /-- `lrem` removal by a failure callback (ingest.py:117, ingest.py:139). -/
  | failRem (s : QSys D W G) (w : W) (x : Str) :
      QStep bkt s ⟨s.queue,
        Function.update s.lease w ((s.lease w).filter (fun y => y ≠ x)), s.wait⟩

/-- Total number of occurrences of the item identifier `y` across every
destination queue, every worker lease list, and every wait set. -/
def qcount {D W G : Type} [Fintype D] [Fintype W] [Fintype G] [DecidableEq D]
    [DecidableEq W] [DecidableEq G] (y : Str) (s : QSys D W G) : Nat :=
  (∑ d, (s.queue d).count y) + (∑ w, (s.lease w).count y) +
    (∑ g, (s.wait g).count y)

/-! ## Concrete instances used by witnesses and counterexamples -/

/-- The default `DATASET_REGEXP` filter `fits$` as a suffix test. -/
def selFits : Str → Bool := fun o => listEndsWith (strL "fits") o

/-- An `EXPSEEN` hash with no entries. -/
def noSeen : Str → Bool := fun _ => false

/-- An `EXPSEEN` hash recording that exposure `A_B_d_1` has been seen. -/
def seenExp1 : Str → Bool := fun e => e == strL "A_B_d_1"

/-- A well-formed raw ("primary") exposure path. -/
def primaryO : Str := strL "b/i/d/A_B_d_1/A_B_d_1_01.fits"

/-- The descriptor parsed from `primaryO`. -/
def primaryInfo : Info :=
  .exposure primaryO (strL "b") (strL "i") (strL "d") (strL "A_B_d_1")
    (strL "A_B_d_1_01.fits") (strL "A") (strL "B") (strL "1")

/-- A well-formed guider ("secondary") path of the same exposure group. -/
def guiderO : Str := strL "b/i/d/A_B_d_1/A_B_d_1_guider.fits"

/-- The descriptor parsed from `guiderO`. -/
def guiderInfo : Info :=
  .exposure guiderO (strL "b") (strL "i") (strL "d") (strL "A_B_d_1")
    (strL "A_B_d_1_guider.fits") (strL "A") (strL "B") (strL "1")

/-- A path that passes the `fits$` filter but parses as neither shape. -/
def badO : Str := strL "bad.fits"

/-- A fresh worker state whose lease list holds `primaryO`. -/
def w0 : WState :=
  { failCnt := fun _ => 0, ingCnt := fun _ => 0, fileFail := fun _ => 0,
    fileIngExc := fun _ => none, fileMdExc := fun _ => none,
    fileIngestTime := fun _ => none, workerQueue := [primaryO],
    waitSet := fun _ => [] }

/-- A sample error text. -/
def wExc : Str := strL "boom"

/-- `w0` after one transient-failure callback for `primaryO`. -/
def wIng1 : WState :=
  match on_ingest_failure primaryO wExc w0 with
  | .ok s => s
  | .error _ => w0

/-- `wIng1` after a second transient-failure callback for `primaryO`. -/
def wIng2 : WState :=
  match on_ingest_failure primaryO wExc wIng1 with
  | .ok s => s
  | .error _ => wIng1

/-- `wIng2` after a third transient-failure callback for `primaryO`. -/
def wIng3 : WState :=
  match on_ingest_failure primaryO wExc wIng2 with
  | .ok s => s
  | .error _ => wIng2

/-- `w0` after one metadata-failure callback for `primaryO`. -/
def wMd1 : WState :=
  match on_metadata_failure primaryO wExc w0 with
  | .ok s => s
  | .error _ => w0

/-- A worker state where the secondary `guiderO` waits in the
`EXPWAIT:A_B_d_1` wait set while the primary `primaryO` is leased. -/
def c5State : WState :=
  { w0 with waitSet := fun g => if g == strL "A_B_d_1" then [guiderO] else [] }

/-- Worker-to-bucket assignment for the concrete two-bucket system. -/
def c1bkt : Bool → Bool := fun w => w

/-- Concrete initial state: one queued identifier, all other lists empty. -/
def c1S0 : QSys Bool Bool Bool :=
  { queue := fun d => if d then [strL "p"] else [],
    lease := fun _ => [], wait := fun _ => [] }

/-- `c1S0` after worker `true` performs its blocking pop-and-push. -/
def c1S1 : QSys Bool Bool Bool :=
  { queue := Function.update c1S0.queue (c1bkt true) [],
    lease := Function.update c1S0.lease true (strL "p" :: c1S0.lease true),
    wait := c1S0.wait }

/-! ## Helper lemmas -/

lemma listStartsWith_append (p l : Str) : listStartsWith p (p ++ l) = true := by
  induction p with
  | nil => rfl
  | cons x xs ih => simp [listStartsWith, ih]

/-! ## Claim C9 -/

/-- Claim C9: for every path `p` that does not itself begin with `s3://`,
`Info.from_path` yields the same result on `p` and on `"s3://" ++ p`; the
marker is stripped exactly once before variant dispatch, and dispatch
selects the LFA variant exactly when the stripped path contains
`rubinobs-lfa-`. -/
theorem from_path_scheme_roundtrip (p : Str)
    (h : listStartsWith s3m p = false) :
    from_path (s3m ++ p) = from_path p ∧
    from_path p = (if listContains lfam p then lfaParse p else expParse p) := by
  have hlen : (s3m ++ p).drop s3m.length = p := List.drop_left s3m p
  constructor
  · simp [from_path, listStartsWith_append, h, hlen]
  · simp [from_path, h]

/-! ## Claim C6 -/

lemma idleDrain_spec (src : List Str) :
    ∀ dst, idleDrain src dst = ([], src ++ dst, src.length + 1) := by
  induction src using List.reverseRecOn with
  | nil =>
    intro dst
    rw [idleDrain.eq_def]
    simp
  | append_singleton rest x ih =>
    intro dst
    rw [idleDrain.eq_def]
    split
    · next heq =>
      rw [List.getLast?_concat] at heq
      exact absurd heq (by simp)
    · next y heq =>
      rw [List.getLast?_concat] at heq
      obtain rfl : y = x := by
        injection heq with hxy
        exact hxy.symm
      rw [List.dropLast_concat, ih (y :: dst)]
      simp

/-- Claim C6 (divergence): for every lease list whose idle duration
exceeds the threshold, the reclaimer pass as written raises `TypeError`
on its very first move attempt — `r.lmove(queue, dest, 0, "RIGHT",
"LEFT")` supplies five positional arguments to redis-py's four-parameter
`lmove` — so the unguarded pass crashes with the lease list untouched and
zero items moved, including at the concrete failing input of a two-item
list idle for 11 seconds; whereas the intended call (the stray timeout
argument removed) would drain all `N` items onto the destination queue in
`N + 1` attempts as the claim states. -/
theorem idle_reclaim_pass_crashes :
    (∀ (k : Nat) (src dst : List Str),
      reclaimListActual (IDLE_MAX + 1 + k) src dst = .error .typeErr) ∧
    reclaimListActual 11 [strL "a", strL "b"] [strL "c"] = .error .typeErr ∧
    (∀ src dst : List Str, idleDrain src dst = ([], src ++ dst, src.length + 1)) := by
  have hcall : ∀ src dst : List Str, idleLmoveCall src dst = .error .typeErr :=
    fun _ _ => rfl
  have hloop : ∀ src dst : List Str, idleDrainLoop src dst 0 = .error .typeErr := by
    intro src dst
    rw [idleDrainLoop.eq_def]
    split
    · next e heq =>
      cases e
      rfl
    · next src1 dst1 heq =>
      rw [hcall src dst] at heq
      exact absurd heq (by simp)
    · next x src1 dst1 heq =>
      rw [hcall src dst] at heq
      exact absurd heq (by simp)
  refine ⟨?_, ?_, idleDrain_spec⟩
  · intro k src dst
    rw [reclaimListActual, if_pos (by omega)]
    exact hloop src dst
  · rw [reclaimListActual, if_pos (by decide)]
    exact hloop [strL "a", strL "b"] [strL "c"]

/-! ## Claim C2 -/

lemma foldl_maxflip_init (l : List Nat) :
    ∀ a, a ≤ l.foldl (fun x c => max c x) a := by
  induction l with
  | nil => intro a; exact le_refl a
  | cons c cs ih =>
    intro a
    exact le_trans (le_max_right c a) (ih (max c a))

lemma foldl_maxflip_mem_le (l : List Nat) :
    ∀ a c, c ∈ l → c ≤ l.foldl (fun x c => max c x) a := by
  induction l with
  | nil => intro a c hc; cases hc
  | cons d ds ih =>
    intro a c hc
    rcases List.mem_cons.mp hc with rfl | hc
    · exact le_trans (le_max_left c a) (foldl_maxflip_init ds (max c a))
    · exact ih (max d a) c hc

lemma foldl_maxflip_cases (l : List Nat) :
    ∀ a, l.foldl (fun x c => max c x) a = a ∨ l.foldl (fun x c => max c x) a ∈ l := by
  induction l with
  | nil => intro a; exact Or.inl rfl
  | cons d ds ih =>
    intro a
    rcases ih (max d a) with h | h
    · rcases max_choice d a with hd | hd
      · right
        rw [List.foldl_cons, h, hd]
        exact List.mem_cons_self d ds
      · left
        rw [List.foldl_cons, h, hd]
    · right
      exact List.mem_cons_of_mem d h

lemma runCommits_some (cs : List Nat) :
    ∀ v, runCommits (some v) cs = some (cs.foldl (fun x c => max c x) v) := by
  induction cs with
  | nil => intro v; rfl
  | cons c cs ih =>
    intro v
    have h1 : runCommits (some v) (c :: cs) = runCommits (some (max v c)) cs := rfl
    rw [h1, ih (max v c), List.foldl_cons, Nat.max_comm c v]

lemma runCommits_none (l : List Nat) (h : l ≠ []) :
    runCommits none l = some (l.foldl (fun x c => max c x) 0) := by
  match l with
  | [] => exact absurd rfl h
  | x :: xs =>
    have h1 : runCommits none (x :: xs) = runCommits (some x) xs := rfl
    rw [h1, runCommits_some xs x, List.foldl_cons]
    have : max x 0 = x := Nat.max_zero x
    rw [this]

/-- Claim C2: after `update_stats` completes with a nonempty set of
candidate sequence numbers for a key, the stored `MAXSEQ` value equals the
maximum of its previous value (absent = 0) and the largest candidate
(`aggregateSeq` is an upper bound of the candidates and is attained by
one); every committed CAS transaction is non-decreasing, so the value
never decreases across any interleaving of commits; and any interleaving
of concurrent `record` calls with candidates {5, 3, 9, 1} for one fresh
key converges to 9. -/
theorem maxseq_monotone_convergent :
    (∀ (cur : Option Nat) (cands : List Nat), cands ≠ [] →
      update_stats_seq cur cands = some (max (cur.getD 0) (aggregateSeq cands)) ∧
      (∀ c ∈ cands, c ≤ aggregateSeq cands) ∧ aggregateSeq cands ∈ cands) ∧
    (∀ (cur : Option Nat) (c : Nat), cur.getD 0 ≤ commitSeq cur c) ∧
    (∀ (v : Option Nat) (cs : List Nat), v.getD 0 ≤ (runCommits v cs).getD 0) ∧
    (∀ l : List Nat, l.Perm [5, 3, 9, 1] → runCommits none l = some 9) := by
  refine ⟨?_, ?_, ?_, ?_⟩
  · intro cur cands hne
    refine ⟨?_, fun c hc => foldl_maxflip_mem_le cands 0 c hc, ?_⟩
    · rw [update_stats_seq, if_neg (by simpa using hne)]
      cases cur with
      | none =>
        have : aggregateSeq cands = max 0 (aggregateSeq cands) :=
          (Nat.zero_max _).symm
        simp [commitSeq]
      | some v => rfl
    · rcases foldl_maxflip_cases cands 0 with h | h
      · match cands, hne with
        | c :: cs, _ =>
          have hc : c ≤ aggregateSeq (c :: cs) :=
            foldl_maxflip_mem_le (c :: cs) 0 c (List.mem_cons_self c cs)
          rw [aggregateSeq] at hc ⊢
          rw [h] at hc ⊢
          exact List.mem_cons.mpr (Or.inl (Nat.le_zero.mp hc).symm)
      · exact h
  · intro cur c
    cases cur with
    | none => exact Nat.zero_le _
    | some v => exact le_max_left v c
  · intro v cs
    induction cs generalizing v with
    | nil => exact le_refl _
    | cons c cs ih =>
      have h1 : runCommits v (c :: cs) = runCommits (some (commitSeq v c)) cs := rfl
      rw [h1]
      refine le_trans ?_ (ih (some (commitSeq v c)))
      cases v with
      | none => exact Nat.zero_le _
      | some w => exact le_max_left w c
  · intro l hperm
    have hne : l ≠ [] := by
      intro hnil
      rw [hnil] at hperm
      exact absurd hperm.symm (by decide)
    rw [runCommits_none l hne]
    haveI : RightCommutative (fun (x c : Nat) => max c x) :=
      ⟨fun b a₁ a₂ => max_left_comm a₂ a₁ b⟩
    rw [hperm.foldl_eq 0]
    decide

/-- Concrete witness for claim C2: the interleaving `[1, 9, 3, 5]` of the
four candidate commits converges to 9, and a single batch `[5, 3]` against
a stored value of 4 yields `max 4 5`. -/
theorem maxseq_monotone_convergent_witness :
    runCommits none [1, 9, 3, 5] = some 9 ∧
    update_stats_seq (some 4) [5, 3] = some (max ((some 4).getD 0) (aggregateSeq [5, 3])) :=
  ⟨maxseq_monotone_convergent.2.2.2 [1, 9, 3, 5] (by decide),
   (maxseq_monotone_convergent.1 (some 4) [5, 3] (by decide)).1⟩

/-! ## Claims C3, C10, C8, C5 -/

/-- Claim C3: each transient-failure callback increments the item's stored
`ing_fail_count` by one, and after the callback the item is on the
worker's lease list exactly when it was there before and the new count is
strictly below `MAX_FAILURES = 3`; in particular a third failure (prior
count 2) removes it with `ing_fail_count` recorded as 3. -/
theorem transient_failure_retry_threshold (url exc : Str) (info : Info)
    (s s' : WState) (hp : from_path url = .ok info)
    (hrun : on_ingest_failure url exc s = .ok s') :
    s'.fileFail info.path = s.fileFail info.path + 1 ∧
    (info.path ∈ s'.workerQueue ↔
      info.path ∈ s.workerQueue ∧ s.fileFail info.path + 1 < MAX_FAILURES) ∧
    (s.fileFail info.path = 2 →
      info.path ∉ s'.workerQueue ∧ s'.fileFail info.path = 3) := by
  simp only [on_ingest_failure, hp, Except.ok.injEq] at hrun
  subst hrun
  simp only [Function.update_same]
  rcases le_or_lt MAX_FAILURES (s.fileFail info.path + 1) with hth | hth
  · rw [if_pos hth]
    refine ⟨by simp, ?_, fun h2 => ⟨?_, by simp [Function.update_same, h2]⟩⟩
    · constructor
      · intro h
        simp at h
      · intro hh
        exact absurd hh.2 (by rw [MAX_FAILURES] at hth ⊢; omega)
    · intro h
      simp at h
  · rw [if_neg (not_le.mpr hth)]
    refine ⟨by simp, ?_, fun h2 => ?_⟩
    · exact ⟨fun hm => ⟨hm, hth⟩, fun hh => hh.1⟩
    · exfalso
      rw [MAX_FAILURES] at hth
      omega

/-- Concrete witness for claim C3: the first failure (count 0 → 1) leaves
`primaryO` leased. -/
theorem transient_failure_retry_threshold_witness :
    wIng1.fileFail primaryO = w0.fileFail primaryO + 1 ∧
    (primaryO ∈ wIng1.workerQueue ↔
      primaryO ∈ w0.workerQueue ∧ w0.fileFail primaryO + 1 < MAX_FAILURES) ∧
    (w0.fileFail primaryO = 2 →
      primaryO ∉ wIng1.workerQueue ∧ wIng1.fileFail primaryO = 3) := by
  have h := transient_failure_retry_threshold primaryO wExc primaryInfo w0 wIng1
    (by decide) (by rfl)
  simpa [primaryInfo, Info.path] using h

/-- Claim C10: every invocation of the transient-failure callback
increments the `FAIL:{bucket}:{instrument}` day counter by exactly 1,
whether or not the item is abandoned; three invocations on one item (from
a fresh count of 0) contribute 3 to that counter, with the item removed by
the third. -/
theorem fail_counter_counts_attempts (url exc : Str) (info : Info)
    (hp : from_path url = .ok info) :
    (∀ s s', on_ingest_failure url exc s = .ok s' →
      s'.failCnt (info.bucket, info.instrument, info.obsDay) =
        s.failCnt (info.bucket, info.instrument, info.obsDay) + 1) ∧
    (∀ s0 s1 s2 s3, on_ingest_failure url exc s0 = .ok s1 →
      on_ingest_failure url exc s1 = .ok s2 →
      on_ingest_failure url exc s2 = .ok s3 →
      s3.failCnt (info.bucket, info.instrument, info.obsDay) =
        s0.failCnt (info.bucket, info.instrument, info.obsDay) + 3 ∧
      (s0.fileFail info.path = 0 → info.path ∉ s3.workerQueue)) := by
  have hone : ∀ s s', on_ingest_failure url exc s = .ok s' →
      s'.failCnt (info.bucket, info.instrument, info.obsDay) =
        s.failCnt (info.bucket, info.instrument, info.obsDay) + 1 := by
    intro s s' hrun
    simp only [on_ingest_failure, hp, Except.ok.injEq] at hrun
    subst hrun
    split
    · simp
    · simp
  have hcnt : ∀ s s', on_ingest_failure url exc s = .ok s' →
      s'.fileFail info.path = s.fileFail info.path + 1 ∧
      (MAX_FAILURES ≤ s.fileFail info.path + 1 → info.path ∉ s'.workerQueue) := by
    intro s s' hrun
    simp only [on_ingest_failure, hp, Except.ok.injEq] at hrun
    subst hrun
    simp only [Function.update_same]
    rcases le_or_lt MAX_FAILURES (s.fileFail info.path + 1) with hth | hth
    · rw [if_pos hth]
      refine ⟨by simp, fun _ => ?_⟩
      intro h
      simp at h
    · rw [if_neg (not_le.mpr hth)]
      exact ⟨by simp, fun h => absurd h (not_le.mpr hth)⟩
  refine ⟨hone, ?_⟩
  intro s0 s1 s2 s3 h1 h2 h3
  refine ⟨?_, ?_⟩
  · rw [hone s2 s3 h3, hone s1 s2 h2, hone s0 s1 h1]
  · intro hz
    have c1 := (hcnt s0 s1 h1).1
    have c2 := (hcnt s1 s2 h2).1
    refine (hcnt s2 s3 h3).2 ?_
    rw [c2, c1, hz, MAX_FAILURES]

/-- Concrete witness for claim C10: three failures on `primaryO` take the
day's FAIL counter from 0 to 3 and remove the item. -/
theorem fail_counter_counts_attempts_witness :
    wIng3.failCnt (strL "b", strL "i", strL "d") =
      w0.failCnt (strL "b", strL "i", strL "d") + 3 ∧
    primaryO ∉ wIng3.workerQueue := by
  have h := (fail_counter_counts_attempts primaryO wExc primaryInfo
    (by decide)).2 w0 wIng1 wIng2 wIng3 (by rfl) (by rfl) (by rfl)
  have h2 := h.2 (by decide)
  exact ⟨by simpa [primaryInfo] using h.1, by simpa [primaryInfo, Info.path] using h2⟩

/-- Claim C8: the metadata-failure callback removes the item from the
worker's lease list unconditionally — for every prior state, so regardless
of any failure count, which it neither reads nor changes — and the same
single pipeline (one atomic state transformation,
`on_metadata_failure`) increments the per-day FAIL counter and records the
error text. -/
theorem metadata_failure_immediate_abandon (url exc : Str) (info : Info)
    (s s' : WState) (hp : from_path url = .ok info)
    (hrun : on_metadata_failure url exc s = .ok s') :
    info.path ∉ s'.workerQueue ∧
    s'.failCnt (info.bucket, info.instrument, info.obsDay) =
      s.failCnt (info.bucket, info.instrument, info.obsDay) + 1 ∧
    s'.fileMdExc info.path = some exc ∧
    s'.fileFail = s.fileFail := by
  simp only [on_metadata_failure, hp, Except.ok.injEq] at hrun
  subst hrun
  refine ⟨?_, by simp, by simp, rfl⟩
  intro h
  simp at h

/-- Concrete witness for claim C8: `primaryO` with a prior failure count
of 0 is removed immediately by the metadata-failure callback. -/
theorem metadata_failure_immediate_abandon_witness :
    primaryO ∉ wMd1.workerQueue ∧
    wMd1.failCnt (strL "b", strL "i", strL "d") =
      w0.failCnt (strL "b", strL "i", strL "d") + 1 ∧
    wMd1.fileMdExc primaryO = some wExc ∧
    wMd1.fileFail = w0.fileFail := by
  have h := metadata_failure_immediate_abandon primaryO wExc primaryInfo w0 wMd1
    (by decide) (by rfl)
  simpa [primaryInfo, Info.path] using h

/-- Claim C5 (divergence witness): the success callback of
`src/ingest.py` does not flush the wait set.  With the secondary
`guiderO` held in the `EXPWAIT:A_B_d_1` wait set and the primary
`primaryO` leased, running `on_success_one` for the primary removes the
primary from the lease list and updates its statistics, but leaves the
wait set untouched and does not move the secondary into the worker's
lease list (nothing in the repository reads `EXPWAIT` or writes
`EXPSEEN`). -/
theorem success_callback_does_not_flush_waitset :
    (on_success_one primaryO 17 c5State).map
      (fun s' => (s'.waitSet (strL "A_B_d_1"),
        decide (guiderO ∈ s'.workerQueue),
        decide (primaryO ∈ s'.workerQueue),
        s'.fileIngestTime primaryO,
        s'.ingCnt (strL "b", strL "i", strL "d"))) =
    .ok ([guiderO], false, false, some 17, 1) := by decide

/-! ## Claims C4 and C7 -/

/-- Claim C4 (counterexample): `guiderO` passes the `fits$` filter and
parses, its descriptor needs a primary counterpart, and a record that the
primary has been seen exists — yet the enqueue batch generates no push at
all for it (neither wait set nor destination queue), while still returning
it in the `info_list`.  This refutes "otherwise append to the Destination
Queue ... no accepted identifier is left unrouted". -/
theorem enqueue_drops_seen_secondary :
    selFits guiderO = true ∧
    from_path guiderO = .ok guiderInfo ∧
    guiderInfo.needs_exposure = true ∧
    seenExp1 guiderInfo.expId = true ∧
    enqueue_objects selFits seenExp1 [guiderO] = .ok ([], [guiderInfo]) := by
  decide

/-- Claim C4 (amended): an identifier that passes the name-pattern filter
and parses is routed by `enqueue_objects` as follows — to the destination
queue when its descriptor does not need a primary counterpart, to the
group's wait set when it needs a primary that has not been seen, and
nowhere at all (only returned for statistics) when it needs a primary that
has been seen; at most one push is ever generated for it. -/
theorem enqueue_routing (sel seen : Str → Bool) (o : Str) (info : Info)
    (hsel : sel o = true) (hparse : from_path o = .ok info) :
    ∃ ops : List PushOp,
      enqueue_objects sel seen [o] = .ok (ops, [info]) ∧
      (info.needs_exposure = false → ops = [.toQueue info.bucket o]) ∧
      (info.needs_exposure = true → seen info.expId = false →
        ops = [.toWait info.expId o]) ∧
      (info.needs_exposure = true → seen info.expId = true → ops = []) ∧
      ops.length ≤ 1 := by
  refine ⟨if info.needs_exposure then
      (if seen info.expId then [] else [.toWait info.expId o])
    else [.toQueue info.bucket o], ?_, ?_, ?_, ?_, ?_⟩
  · cases hne : info.needs_exposure with
    | false =>
      simp [enqueue_objects, routeOne, hsel, hparse, hne]
      rfl
    | true =>
      cases hsn : seen info.expId with
      | false =>
        simp [enqueue_objects, routeOne, hsel, hparse, hne, hsn]
        rfl
      | true =>
        simp [enqueue_objects, routeOne, hsel, hparse, hne, hsn]
        rfl
  · intro hne
    simp [hne]
  · intro hne hsn
    simp [hne, hsn]
  · intro hne hsn
    simp [hne, hsn]
  · cases hne : info.needs_exposure with
    | false => simp
    | true =>
      cases hsn : seen info.expId with
      | false => simp
      | true => simp

/-- Concrete witness for the amended claim C4: with no primary seen, the
secondary goes to the wait set; the plain primary goes to the queue. -/
theorem enqueue_routing_witness :
    (∃ ops : List PushOp,
      enqueue_objects selFits noSeen [guiderO] = .ok (ops, [guiderInfo]) ∧
      (guiderInfo.needs_exposure = false → ops = [.toQueue guiderInfo.bucket guiderO]) ∧
      (guiderInfo.needs_exposure = true → noSeen guiderInfo.expId = false →
        ops = [.toWait guiderInfo.expId guiderO]) ∧
      (guiderInfo.needs_exposure = true → noSeen guiderInfo.expId = true → ops = []) ∧
      ops.length ≤ 1) ∧
    (∃ ops : List PushOp,
      enqueue_objects selFits noSeen [primaryO] = .ok (ops, [primaryInfo]) ∧
      (primaryInfo.needs_exposure = false → ops = [.toQueue primaryInfo.bucket primaryO]) ∧
      (primaryInfo.needs_exposure = true → noSeen primaryInfo.expId = false →
        ops = [.toWait primaryInfo.expId primaryO]) ∧
      (primaryInfo.needs_exposure = true → noSeen primaryInfo.expId = true → ops = []) ∧
      ops.length ≤ 1) :=
  ⟨enqueue_routing selFits noSeen guiderO guiderInfo (by decide) (by decide),
   enqueue_routing selFits noSeen primaryO primaryInfo (by decide) (by decide)⟩

/-- Claim C7 (counterexample): `badO` passes the `fits$` filter but parses
as neither shape; in isolation `"b/i/d/A_B_d_1/A_B_d_1_01.fits"` is routed
to its destination queue, but a batch containing both aborts with the
parse error — the error propagates to the caller of the enqueue operation
and none of the batch's buffered pushes execute. -/
theorem malformed_aborts_batch_cex :
    selFits badO = true ∧
    from_path badO = .error .malformed ∧
    routeOne selFits noSeen primaryO =
      .ok ([.toQueue (strL "b") primaryO], [primaryInfo]) ∧
    enqueue_objects selFits noSeen [primaryO, badO] = .error .malformed := by
  decide

/-- Claim C7 (amended): a batch containing an identifier that passes the
name-pattern filter but fails to parse makes the whole enqueue operation
raise: the parse error propagates to the caller (the identifier is logged
and dropped, but so is the routing of every other identifier in that
batch, since the buffered pipeline is never executed). -/
theorem malformed_aborts_batch (sel seen : Str → Bool) (objects : List Str)
    (o : Str) (ho : o ∈ objects) (hsel : sel o = true)
    (hbad : from_path o = .error .malformed) :
    ∃ e, enqueue_objects sel seen objects = .error e := by
  induction objects with
  | nil => cases ho
  | cons a as ih =>
    rcases List.mem_cons.mp ho with rfl | hmem
    · refine ⟨.malformed, ?_⟩
      simp [enqueue_objects, routeOne, hsel, hbad]
      rfl
    · cases hr : routeOne sel seen a with
      | error e =>
        refine ⟨e, ?_⟩
        simp [enqueue_objects, hr]
        rfl
      | ok v =>
        obtain ⟨e, he⟩ := ih hmem
        refine ⟨e, ?_⟩
        simp [enqueue_objects, hr, he]
        rfl

/-- Concrete witness for the amended claim C7. -/
theorem malformed_aborts_batch_witness :
    ∃ e, enqueue_objects selFits noSeen [primaryO, badO] = .error e :=
  malformed_aborts_batch selFits noSeen [primaryO, badO] badO
    (by decide) (by decide) (by decide)

/-- Concrete witness for claim C9 at `p = "bucketA/i/d/A_B_d_1/f.fits"`. -/
theorem from_path_scheme_roundtrip_witness :
    from_path (s3m ++ strL "bucketA/i/d/A_B_d_1/f.fits") =
      from_path (strL "bucketA/i/d/A_B_d_1/f.fits") ∧
    from_path (strL "bucketA/i/d/A_B_d_1/f.fits") =
      (if listContains lfam (strL "bucketA/i/d/A_B_d_1/f.fits")
       then lfaParse (strL "bucketA/i/d/A_B_d_1/f.fits")
       else expParse (strL "bucketA/i/d/A_B_d_1/f.fits")) :=
  from_path_scheme_roundtrip (strL "bucketA/i/d/A_B_d_1/f.fits") (by decide)


/-! ## Claim C1 -/

lemma sum_count_update {I : Type} [Fintype I] [DecidableEq I]
    (f : I → List Str) (j : I) (l : List Str) (y : Str) :
    (∑ i, ((Function.update f j l) i).count y) + (f j).count y
      = (∑ i, (f i).count y) + l.count y := by
  have hpt : ∀ i, (Function.update f j l i).count y
      = Function.update (fun i => (f i).count y) j (l.count y) i := by
    intro i
    by_cases hi : i = j
    · subst hi
      simp
    · simp [Function.update_noteq hi]
  rw [Finset.sum_congr rfl (fun i _ => hpt i)]
  rw [Finset.sum_update_of_mem (Finset.mem_univ j)]
  rw [Finset.sdiff_singleton_eq_erase]
  have h2 : (f j).count y + ∑ i ∈ Finset.univ.erase j, (f i).count y
      = ∑ i, (f i).count y :=
    Finset.add_sum_erase Finset.univ (fun i => (f i).count y) (Finset.mem_univ j)
  omega

lemma qcount_step_le {D W G : Type} [Fintype D] [Fintype W] [Fintype G]
    [DecidableEq D] [DecidableEq W] [DecidableEq G] (bkt : W → D)
    {s t : QSys D W G} (h : QStep bkt s t) (y : Str) :
    qcount y t ≤ qcount y s := by
  cases h with
  | blmove w x rest hq =>
    simp only [qcount]
    have h1 := sum_count_update s.queue (bkt w) rest y
    have h2 := sum_count_update s.lease w (x :: s.lease w) y
    have hq' : (s.queue (bkt w)).count y = rest.count y + List.count y [x] := by
      rw [hq, List.count_append]
    have hc : (x :: s.lease w).count y = List.count y [x] + (s.lease w).count y := by
      rw [show x :: s.lease w = [x] ++ s.lease w from rfl, List.count_append]
    omega
  | greedy w x rest hq =>
    simp only [qcount]
    have h1 := sum_count_update s.queue (bkt w) rest y
    have h2 := sum_count_update s.lease w (x :: s.lease w) y
    have hq' : (s.queue (bkt w)).count y = rest.count y + List.count y [x] := by
      rw [hq, List.count_append]
    have hc : (x :: s.lease w).count y = List.count y [x] + (s.lease w).count y := by
      rw [show x :: s.lease w = [x] ++ s.lease w from rfl, List.count_append]
    omega
  | idleMove w x rest hq =>
    simp only [qcount]
    have h1 := sum_count_update s.queue (bkt w) (x :: s.queue (bkt w)) y
    have h2 := sum_count_update s.lease w rest y
    have hq' : (s.lease w).count y = rest.count y + List.count y [x] := by
      rw [hq, List.count_append]
    have hc : (x :: s.queue (bkt w)).count y
        = List.count y [x] + (s.queue (bkt w)).count y := by
      rw [show x :: s.queue (bkt w) = [x] ++ s.queue (bkt w) from rfl, List.count_append]
    omega
  | successRem w x =>
    simp only [qcount]
    have h2 := sum_count_update s.lease w ((s.lease w).filter (fun y => y ≠ x)) y
    have hf : ((s.lease w).filter (fun y_1 => y_1 ≠ x)).count y
        ≤ (s.lease w).count y :=
      (List.filter_sublist (s.lease w)).count_le y
    omega
  | failRem w x =>
    simp only [qcount]
    have h2 := sum_count_update s.lease w ((s.lease w).filter (fun y => y ≠ x)) y
    have hf : ((s.lease w).filter (fun y_1 => y_1 ≠ x)).count y
        ≤ (s.lease w).count y :=
      (List.filter_sublist (s.lease w)).count_le y
    omega

/-- Claim C1: starting from a state where every item identifier occurs at
most once across all destination queues, worker lease lists and wait sets,
every state reachable through the system's atomic steps (the worker's
blocking pop-and-push, the greedy non-blocking transfers, the idle
reclaimer's single-item moves, and the success/failure removals) still has
every identifier in at most one list; in particular an identifier present
in a worker's lease list is in no destination queue, in no other worker's
lease list, and in no wait set. -/
theorem at_most_one_owner {D W G : Type} [Fintype D] [Fintype W] [Fintype G]
    [DecidableEq D] [DecidableEq W] [DecidableEq G] (bkt : W → D)
    (s0 s : QSys D W G) (hinit : ∀ y, qcount y s0 ≤ 1)
    (hreach : Relation.ReflTransGen (QStep bkt) s0 s) :
    (∀ y, qcount y s ≤ 1) ∧
    (∀ (y : Str) (w : W), y ∈ s.lease w →
      (∀ d, y ∉ s.queue d) ∧ (∀ w', w' ≠ w → y ∉ s.lease w') ∧
      (∀ g, y ∉ s.wait g)) := by
  have inv : ∀ y, qcount y s ≤ 1 := by
    induction hreach with
    | refl => exact hinit
    | tail _ hbc ih => exact fun y => le_trans (qcount_step_le bkt hbc y) (ih y)
  refine ⟨inv, ?_⟩
  intro y w hmem
  have hw : 1 ≤ (s.lease w).count y := List.count_pos_iff.mpr hmem
  have hsum := inv y
  rw [qcount] at hsum
  have hLw : (s.lease w).count y ≤ ∑ w', (s.lease w').count y :=
    @Finset.single_le_sum W ℕ _ (fun i => (s.lease i).count y) Finset.univ
      (fun i _ => Nat.zero_le _) w (Finset.mem_univ w)
  have hQ0 : (∑ d, (s.queue d).count y) = 0 := by omega
  have hW0 : (∑ g, (s.wait g).count y) = 0 := by omega
  refine ⟨?_, ?_, ?_⟩
  · intro d
    have hd : (s.queue d).count y = 0 :=
      (Finset.sum_eq_zero_iff.mp hQ0) d (Finset.mem_univ d)
    exact List.count_eq_zero.mp hd
  · intro w' hne
    have hsplit : (s.lease w).count y + ∑ i ∈ Finset.univ.erase w, (s.lease i).count y
        = ∑ w'', (s.lease w'').count y :=
      Finset.add_sum_erase Finset.univ (fun i => (s.lease i).count y) (Finset.mem_univ w)
    have hw' : (s.lease w').count y ≤ ∑ i ∈ Finset.univ.erase w, (s.lease i).count y :=
      @Finset.single_le_sum W ℕ _ (fun i => (s.lease i).count y) (Finset.univ.erase w)
        (fun i _ => Nat.zero_le _) w' (Finset.mem_erase.mpr ⟨hne, Finset.mem_univ w'⟩)
    have : (s.lease w').count y = 0 := by omega
    exact List.count_eq_zero.mp this
  · intro g
    have hg : (s.wait g).count y = 0 :=
      (Finset.sum_eq_zero_iff.mp hW0) g (Finset.mem_univ g)
    exact List.count_eq_zero.mp hg

/-- Concrete witness for claim C1: after worker `true` leases `"p"` from
its bucket queue, the identifier is in that worker's lease list only. -/
theorem at_most_one_owner_witness :
    qcount (strL "p") c1S1 ≤ 1 ∧
    strL "p" ∉ c1S1.queue true ∧ strL "p" ∉ c1S1.lease false ∧
    strL "p" ∉ c1S1.wait true := by
  have hinit : ∀ y, qcount y c1S0 ≤ 1 := by
    intro y
    have : qcount y c1S0 = (if strL "p" = y then 1 else 0) := by
      simp [qcount, c1S0, Fintype.sum_bool, List.count_cons]
    rw [this]
    split
    · exact le_refl 1
    · exact Nat.zero_le 1
  have hstep : QStep c1bkt c1S0 c1S1 :=
    QStep.blmove c1S0 true (strL "p") [] (by rfl)
  have h := at_most_one_owner c1bkt c1S0 c1S1 hinit
    (Relation.ReflTransGen.single hstep)
  have hmem : strL "p" ∈ c1S1.lease true := by decide
  have h2 := h.2 (strL "p") true hmem
  exact ⟨h.1 (strL "p"), h2.1 true, h2.2.1 false (by decide), h2.2.2 true⟩
